import Mathlib

/-!
# Verification of the helix configuration resolver

Shallow embedding of `helix-term/src/config.rs` (`Config::load` and its
helpers) together with proofs about the resolution policy it implements.

Conventions of the embedding:

* `HashMap<K, V>` / `HashSet<K>` values are modelled as association lists
  resp. deduplicated lists; every statement about a map goes through
  `alLookup`, so the (unspecified) iteration order of the Rust hash
  containers never shows through.
* `Result<T, E>` is `Except E T`; the `?` operator is rendered as an
  explicit `match` on the intermediate result.
* The externally consumed primitives (the keybinding trie and
  `merge_keys`, `merge_toml_values`, the typed editor settings record and
  its `try_into` conversion, and `keymap::default()`) are not part of the
  shown source; they are modelled from the spec's stated contracts and
  are marked `Modelled from the spec:` below.
* `Config::load` consumes the outcome of `toml::from_str` on each
  document; the TOML surface syntax is external, so `load` is embedded
  from the point where the two parse outcomes
  (`Result<ConfigRaw, ConfigLoadError>`) exist (lines 80–85 of the
  source).
-/

namespace Helix

/-- The editor modes keying the keymap table (`helix_view::document::Mode`). -/
inductive Mode where
  | normal
  | select
  | insert
deriving DecidableEq, Repr

/-- Association-list lookup; models `HashMap` access. -/
def alLookup {K V : Type} [DecidableEq K] : List (K × V) → K → Option V
  | [], _ => none
  | kv :: rest, k => if kv.1 = k then some kv.2 else alLookup rest k

/-- Remove every entry with the given key. -/
def alErase {K V : Type} [DecidableEq K] : List (K × V) → K → List (K × V)
  | [], _ => []
  | kv :: rest, k => if kv.1 = k then alErase rest k else kv :: alErase rest k

/-- Association-list insert-or-replace; models `HashMap::insert`. -/
def alInsert {K V : Type} [DecidableEq K] (m : List (K × V)) (k : K) (v : V) :
    List (K × V) :=
  (k, v) :: alErase m k

/-- Modelled from the spec: the keybinding trie (`keymap::KeyTrie`) is an
external primitive (§1 puts the trie data structure and its own merge
algorithm out of scope); §6 specifies only the layer contract — override
wins on conflicting bound keys, additive for non-conflicting ones — so a
trie is modelled as a finite map from bound key to command name. -/
abbrev KeyTrie := List (String × String)

/-- A keymap table: mode → keybinding trie. -/
abbrev KeysMap := List (Mode × KeyTrie)

/-- Modelled from the spec: merging one keybinding trie into another,
override wins on conflicting bound keys, additive otherwise (§6). -/
def mergeTrie (dst delta : KeyTrie) : KeyTrie :=
  delta.foldl (fun d kv => alInsert d kv.1 kv.2) dst

/-- Modelled from the spec: `keymap::merge_keys(dst, delta)` — the
override-merge of keymap tables consumed as a primitive (§6 `layer`):
for every mode in `delta`, its trie is merged into the mode's trie in
`dst` (added outright when the mode is absent from `dst`). -/
def merge_keys (dst delta : KeysMap) : KeysMap :=
  delta.foldl
    (fun d mt =>
      match alLookup d mt.1 with
      | some t => alInsert d mt.1 (mergeTrie t mt.2)
      | none => alInsert d mt.1 mt.2)
    dst

/-- Modelled from the spec: `keymap::default()` (§6 `DEFAULT_KEYS`), the
complete built-in table with an entry for every mode; the concrete
bindings are immaterial to the resolver. -/
def keymapDefault : KeysMap :=
  [ (Mode.normal, [("h", "move_char_left"), ("l", "move_char_right")]),
    (Mode.select, [("h", "extend_char_left")]),
    (Mode.insert, [("esc", "normal_mode")]) ]

/-- Untyped structured value, modelling `toml::Value` (a tree of scalars
and string-keyed mappings, per the §9 design note). -/
inductive Value where
  | str : String → Value
  | int : Int → Value
  | bool : Bool → Value
  | table : List (String × Value) → Value

/-- Modelled from the spec (§4.4): the depth-limited deep merge
`helix_loader::merge_toml_values(left, right, depth)` — keys present in
only one side are copied as-is, keys present in both sides are merged
recursively while depth budget remains, everything else (and any merge
once the budget is exhausted) is replaced by the right/override side. -/
def mergeTomlGo : Nat → Value → Value → Value
  | d + 1, Value.table ka, Value.table kb =>
      Value.table
        ((ka.map fun kv =>
            match alLookup kb kv.1 with
            | some vb => (kv.1, mergeTomlGo d kv.2 vb)
            | none => kv)
          ++ kb.filter fun kv => (alLookup ka kv.1).isNone)
  | _, _, b => b

/-- `helix_loader::merge_toml_values` with the argument order of the source. -/
def merge_toml_values (a b : Value) (max_depth : Nat) : Value :=
  mergeTomlGo max_depth a b

/-- Modelled from the spec: the strongly-typed editor settings record
(`helix_view::editor::Config`, external); absence of a value yields the
type's documented defaults (§4.4), so every field carries a default. -/
structure EditorConfig where
  scrolloff : Int := 5
  mouse : Bool := true
deriving DecidableEq, Repr

/-- Modelled from the spec: one step of the schema-checked conversion —
an unknown field, or a known field with a wrongly-typed value, is a
structural (schema) error carrying the cause (§4.4). -/
def setEditorField (c : EditorConfig) (kv : String × Value) : Except String EditorConfig :=
  match kv with
  | ("scrolloff", Value.int n) => Except.ok { c with scrolloff := n }
  | ("mouse", Value.bool b) => Except.ok { c with mouse := b }
  | (k, _) => Except.error ("invalid editor setting: " ++ k)

def applyEditorFields : EditorConfig → List (String × Value) → Except String EditorConfig
  | c, [] => Except.ok c
  | c, kv :: rest =>
    match setEditorField c kv with
    | Except.error e => Except.error e
    | Except.ok c2 => applyEditorFields c2 rest

/-- Modelled from the spec: `toml::Value::try_into::<editor::Config>()` —
schema-checked conversion of a merged untyped value into the typed
settings record (§4.4 materialization). -/
def tryIntoEditor : Value → Except String EditorConfig
  | Value.table kvs => applyEditorFields {} kvs
  | _ => Except.error "editor settings must be a table"

/-- `ConfigLoadError` (source lines 54–58): a structural parse/schema
failure (`BadConfig`, carrying the TOML error rendered as a string) or an
I/O availability failure (`Error`). -/
inductive ConfigLoadError where
  | BadConfig : String → ConfigLoadError
  | Error : String → ConfigLoadError
deriving DecidableEq, Repr

/-- `LanguageConfigRaw` (source lines 32–39). -/
structure LanguageConfigRaw where
  name : String
  theme : Option String := none
  keys : Option KeysMap := none
  editor : Option Value := none

/-- `ConfigRaw` (source lines 23–30). -/
structure ConfigRaw where
  theme : Option String := none
  keys : Option KeysMap := none
  editor : Option Value := none
  languages : Option (List LanguageConfigRaw) := none

/-- The resolved `Config` (source lines 12–21). -/
structure Config where
  theme : Option String
  theme_lang : List (String × String)
  keys : KeysMap
  keys_lang : List (String × KeysMap)
  editor : EditorConfig
  editor_lang : List (String × EditorConfig)
deriving DecidableEq, Repr

/-- `Config::merge_config_keys` (source lines 249–262). -/
def merge_config_keys (dst : KeysMap) (global_keys local_keys : Option KeysMap) :
    KeysMap :=
  let d1 := match global_keys with
    | some gk => merge_keys dst gk
    | none => dst
  match local_keys with
  | some lk => merge_keys d1 lk
  | none => d1

/-- `Config::merge_editor_toml` (source lines 264–273). -/
def merge_editor_toml (global_editor local_editor : Option Value) : Option Value :=
  match global_editor, local_editor with
  | none, none => none
  | none, some val => some val
  | some val, none => some val
  | some g, some l => some (merge_toml_values g l 3)

/-- `Config::map_editor_config` (source lines 275–284). -/
def map_editor_config : Option Value → Except ConfigLoadError EditorConfig
  | none => Except.ok {}
  | some val =>
    match tryIntoEditor val with
    | Except.error e => Except.error (ConfigLoadError.BadConfig e)
    | Except.ok ed => Except.ok ed

/-- `Config::get_lang_config_map` (source lines 143–155): turn the optional
language-override list into a map keyed by language name; collecting into
a `HashMap` makes the last occurrence win on duplicate names. -/
def get_lang_config_map (languages : Option (List LanguageConfigRaw)) :
    List (String × LanguageConfigRaw) :=
  (languages.getD []).foldl (fun m lang => alInsert m lang.name lang) []

/-- The `HashSet` union of language names mentioned by either side
(source lines 174–178), as a deduplicated list. -/
def langNames (lang_global lang_local : List (String × LanguageConfigRaw)) :
    List String :=
  ((lang_global.map Prod.fst) ++ (lang_local.map Prod.fst)).dedup

/-- The body of the per-language loop of `Config::get_lang_maps`
(source lines 181–231): resolve one language's optional
theme/keys/editor triple from the two sides' override records. -/
def resolveLang (merged_keys : KeysMap) (editor_value : Option Value)
    (lang_global lang_local : Option LanguageConfigRaw) :
    Except ConfigLoadError (Option String × Option KeysMap × Option EditorConfig) :=
  match lang_global, lang_local with
  | none, some lang_conf | some lang_conf, none =>
    let keys := lang_conf.keys.map fun k => merge_config_keys merged_keys (some k) none
    if lang_conf.editor.isSome then
      match map_editor_config (merge_editor_toml editor_value lang_conf.editor) with
      | Except.error e => Except.error e
      | Except.ok ed => Except.ok (lang_conf.theme, keys, some ed)
    else
      Except.ok (lang_conf.theme, keys, none)
  | some lg, some ll =>
    let keys :=
      if lg.keys.isSome || ll.keys.isSome then
        some (merge_config_keys merged_keys lg.keys ll.keys)
      else none
    if lg.editor.isSome || ll.editor.isSome then
      match
        map_editor_config
          (merge_editor_toml editor_value (merge_editor_toml lg.editor ll.editor)) with
      | Except.error e => Except.error e
      | Except.ok ed => Except.ok (ll.theme.or lg.theme, keys, some ed)
    else
      Except.ok (ll.theme.or lg.theme, keys, none)
  | none, none => Except.ok (none, none, none)

/-- Prepend an entry when the resolved optional field is present
(the conditional `insert`s at source lines 233–243). -/
def consOpt {A : Type} (lang : String) (o : Option A) (m : List (String × A)) :
    List (String × A) :=
  match o with
  | some v => (lang, v) :: m
  | none => m

/-- The per-language loop of `Config::get_lang_maps` over the (deduplicated)
list of language names, aborting on the first structural failure (the `?`
at source line 196 resp. 219). -/
def langMapsGo (lang_global lang_local : List (String × LanguageConfigRaw))
    (merged_keys : KeysMap) (editor_value : Option Value) :
    List String →
      Except ConfigLoadError
        (List (String × String) × List (String × KeysMap) × List (String × EditorConfig))
  | [] => Except.ok ([], [], [])
  | lang :: rest =>
    match resolveLang merged_keys editor_value
        (alLookup lang_global lang) (alLookup lang_local lang) with
    | Except.error e => Except.error e
    | Except.ok (theme, keys, editor) =>
      match langMapsGo lang_global lang_local merged_keys editor_value rest with
      | Except.error e => Except.error e
      | Except.ok (tl, kl, el) =>
        Except.ok (consOpt lang theme tl, consOpt lang keys kl, consOpt lang editor el)

/-- `Config::get_lang_maps` (source lines 157–247). -/
def get_lang_maps (lang_global lang_local : List (String × LanguageConfigRaw))
    (merged_keys : KeysMap) (editor_value : Option Value) :
    Except ConfigLoadError
      (List (String × String) × List (String × KeysMap) × List (String × EditorConfig)) :=
  langMapsGo lang_global lang_local merged_keys editor_value
    (langNames lang_global lang_local)

/-- The shared body of the two one-document arms of `Config::load`
(source lines 114–134): exactly one document is well-formed, the other
merely unavailable. -/
def loadSingle (config : ConfigRaw) : Except ConfigLoadError Config :=
  let keys := merge_config_keys keymapDefault config.keys none
  match get_lang_maps (get_lang_config_map config.languages) [] keys config.editor with
  | Except.error e => Except.error e
  | Except.ok (theme_lang, keys_lang, editor_lang) =>
    match map_editor_config config.editor with
    | Except.error e => Except.error e
    | Except.ok editor =>
      Except.ok
        { theme := config.theme, theme_lang := theme_lang, keys := keys,
          keys_lang := keys_lang, editor := editor, editor_lang := editor_lang }

/-- `Config::load` (source lines 76–141), embedded from the two parse
outcomes onward. The or-pattern arm at lines 110–113 tests its left
alternative `(_, Err(BadConfig(err)))` first, so it is rendered as two
consecutive arms in that order. -/
def load (global_config local_config : Except ConfigLoadError ConfigRaw) :
    Except ConfigLoadError Config :=
  match global_config, local_config with
  | Except.ok g, Except.ok l =>
    let keys := merge_config_keys keymapDefault g.keys l.keys
    let editor_value := merge_editor_toml g.editor l.editor
    match get_lang_maps (get_lang_config_map g.languages)
        (get_lang_config_map l.languages) keys editor_value with
    | Except.error e => Except.error e
    | Except.ok (theme_lang, keys_lang, editor_lang) =>
      match map_editor_config editor_value with
      | Except.error e => Except.error e
      | Except.ok editor =>
        Except.ok
          { theme := l.theme.or g.theme, theme_lang := theme_lang, keys := keys,
            keys_lang := keys_lang, editor := editor, editor_lang := editor_lang }
  | _, Except.error (ConfigLoadError.BadConfig e) =>
    Except.error (ConfigLoadError.BadConfig e)
  | Except.error (ConfigLoadError.BadConfig e), _ =>
    Except.error (ConfigLoadError.BadConfig e)
  | Except.ok c, Except.error _ => loadSingle c
  | Except.error _, Except.ok c => loadSingle c
  | Except.error e, Except.error _ => Except.error e

/-- Boolean success test on `Except`. -/
def exOk {ε α : Type} : Except ε α → Bool
  | Except.ok _ => true
  | Except.error _ => false

/-- Structural-failure test on a parse outcome: `Err(BadConfig(_))`. -/
def isStructuralFailure : Except ConfigLoadError ConfigRaw → Bool
  | Except.error (ConfigLoadError.BadConfig _) => true
  | _ => false

/-- The spec-side layering operation of §4.2/§4.3 (glossary "Layering"),
applied to an optional override table: a missing keys field contributes
nothing, a present one is override-merged onto the base. -/
def specLayer (base : KeysMap) (overrides : Option KeysMap) : KeysMap :=
  match overrides with
  | none => base
  | some k => merge_keys base k

/-- The per-language merged-but-not-yet-materialized editor value of §4.3:
`some v` when the language resolution will materialize `v`, `none` when
neither side supplies editor settings for the language. -/
def langEditorValue (editor_value : Option Value) :
    Option LanguageConfigRaw → Option LanguageConfigRaw → Option (Option Value)
  | none, some c | some c, none =>
    if c.editor.isSome then some (merge_editor_toml editor_value c.editor) else none
  | some lg, some ll =>
    if lg.editor.isSome || ll.editor.isSome then
      some (merge_editor_toml editor_value (merge_editor_toml lg.editor ll.editor))
    else none
  | none, none => none

/-- The effective override record for a language: the last block with the
given name, mirroring the last-wins behaviour of collecting into a
`HashMap`. -/
def findBlock (bs : List LanguageConfigRaw) (lang : String) : Option LanguageConfigRaw :=
  bs.foldl (fun r b => if b.name = lang then some b else r) none

/-- `docHasField d lang f`: the document `d` has a language-override block
named `lang` for which `f` holds (e.g. "specifies a theme"). -/
def docHasField (d : ConfigRaw) (lang : String) (f : LanguageConfigRaw → Bool) : Bool :=
  (d.languages.getD []).any fun b => b.name == lang && f b

/-- `ConfigRaw` with the per-language override list removed. -/
def stripLangs (c : ConfigRaw) : ConfigRaw :=
  { c with languages := none }

/-! ### Concrete documents and configurations used by the witnesses -/

/-- A concrete language-override block for the witnesses: "rust" with a
keymap override only. -/
def rustKeysOverride : LanguageConfigRaw :=
  { name := "rust", keys := some [(Mode.insert, [("esc", "noop")])] }

/-- A concrete document whose only content is the "rust" keymap override. -/
def rustKeysDoc : ConfigRaw := { languages := some [rustKeysOverride] }

/-- The keymap table that the "rust" override layers onto the default base. -/
def rustMergedKeys : KeysMap :=
  [(Mode.insert, [("esc", "noop")]),
   (Mode.normal, [("h", "move_char_left"), ("l", "move_char_right")]),
   (Mode.select, [("h", "extend_char_left")])]

/-- The configuration `load (ok rustKeysDoc) (ok empty)` resolves to. -/
def rustKeysCfg : Config :=
  { theme := none, theme_lang := [], keys := keymapDefault,
    keys_lang := [("rust", rustMergedKeys)], editor := {}, editor_lang := [] }

/-- A language-override block whose editor value is not a table. -/
def rustBadEditorOverride : LanguageConfigRaw :=
  { name := "rust", editor := some (Value.str "x") }

/-- A document giving language "rust" a non-table editor value. -/
def rustBadEditorDoc : ConfigRaw := { languages := some [rustBadEditorOverride] }

/-- A language-override block supplying only a theme for "rust". -/
def rustThemeOverride : LanguageConfigRaw := { name := "rust", theme := some "x" }

/-- A document with a base theme and a per-language theme override. -/
def themeLangDoc : ConfigRaw :=
  { theme := some "t", languages := some [rustThemeOverride] }

/-- The configuration `load (ok themeLangDoc) (ok empty)` resolves to. -/
def themeLangCfg : Config :=
  { theme := some "t", theme_lang := [("rust", "x")], keys := keymapDefault,
    keys_lang := [], editor := {}, editor_lang := [] }

/-- A document giving language "py" an editor-settings override only. -/
def pyEditorOverride : LanguageConfigRaw :=
  { name := "py", editor := some (Value.table [("mouse", Value.bool false)]) }

/-- A document whose only content is the "py" editor override. -/
def pyEditorDoc : ConfigRaw := { languages := some [pyEditorOverride] }

/-- A document whose only content is a "rust" theme override. -/
def rustThemeDoc : ConfigRaw := { languages := some [rustThemeOverride] }

/-- The configuration `load (ok rustThemeDoc) (ok pyEditorDoc)` resolves to. -/
def c7cfg : Config :=
  { theme := none, theme_lang := [("rust", "x")], keys := keymapDefault,
    keys_lang := [], editor := {},
    editor_lang := [("py", { scrolloff := 5, mouse := false })] }

end Helix

deriving instance DecidableEq for Except

namespace Helix

/-! ## Association-list lemmas -/

theorem alLookup_alErase {K V : Type} [DecidableEq K] (m : List (K × V)) (k k' : K) :
    alLookup (alErase m k) k' = if k = k' then none else alLookup m k' := by
  induction m with
  | nil => simp [alErase, alLookup]
  | cons kv rest ih =>
    by_cases h1 : kv.1 = k <;> by_cases h2 : k = k' <;>
      simp_all [alErase, alLookup]

theorem alLookup_alInsert {K V : Type} [DecidableEq K] (m : List (K × V)) (k k' : K) (v : V) :
    alLookup (alInsert m k v) k' = if k = k' then some v else alLookup m k' := by
  by_cases h : k = k' <;> simp [alInsert, alLookup, alLookup_alErase, h]

theorem alLookup_isSome_iff {K V : Type} [DecidableEq K] (m : List (K × V)) (k : K) :
    (alLookup m k).isSome = true ↔ k ∈ m.map Prod.fst := by
  induction m with
  | nil => simp [alLookup]
  | cons kv rest ih =>
    by_cases h : kv.1 = k <;> simp [alLookup, h, ih]
    exact fun hk => (h hk.symm).elim

/-! ## Lemmas about the keymap layering primitive -/

theorem merge_keys_isSome (dst delta : KeysMap) (m : Mode)
    (h : (alLookup dst m).isSome = true) :
    (alLookup (merge_keys dst delta) m).isSome = true := by
  induction delta generalizing dst with
  | nil => exact h
  | cons mt rest ih =>
    have hstep : ∀ t? : Option KeyTrie,
        (alLookup (match t? with
          | some t => alInsert dst mt.1 (mergeTrie t mt.2)
          | none => alInsert dst mt.1 mt.2) m).isSome = true := by
      intro t?
      cases t? <;> by_cases hk : mt.1 = m <;> simp [alLookup_alInsert, hk, h]
    exact ih _ (hstep (alLookup dst mt.1))

theorem merge_config_keys_eq_specLayer (dst : KeysMap) (a b : Option KeysMap) :
    merge_config_keys dst a b = specLayer (specLayer dst a) b := by
  cases a <;> cases b <;> rfl

theorem merge_config_keys_isSome (dst : KeysMap) (a b : Option KeysMap) (m : Mode)
    (h : (alLookup dst m).isSome = true) :
    (alLookup (merge_config_keys dst a b) m).isSome = true := by
  rw [merge_config_keys_eq_specLayer]
  cases a <;> cases b <;>
    simp only [specLayer] <;>
    first
      | exact h
      | exact merge_keys_isSome _ _ _ h
      | exact merge_keys_isSome _ _ _ (merge_keys_isSome _ _ _ h)

/-! ## Inversion of the success paths of `load` -/

theorem loadSingle_ok_elim (c : ConfigRaw) (cfg : Config)
    (h : loadSingle c = Except.ok cfg) :
    ∃ tl kl el ed,
      get_lang_maps (get_lang_config_map c.languages) []
          (merge_config_keys keymapDefault c.keys none) c.editor = Except.ok (tl, kl, el) ∧
      map_editor_config c.editor = Except.ok ed ∧
      cfg = { theme := c.theme, theme_lang := tl,
              keys := merge_config_keys keymapDefault c.keys none,
              keys_lang := kl, editor := ed, editor_lang := el } := by
  simp only [loadSingle] at h
  split at h
  · exact absurd h (by simp)
  · rename_i tl kl el heq1
    split at h
    · exact absurd h (by simp)
    · rename_i ed heq2
      refine ⟨tl, kl, el, ed, heq1, heq2, ?_⟩
      injection h with h
      exact h.symm

theorem load_ok_elim (g l : ConfigRaw) (cfg : Config)
    (h : load (Except.ok g) (Except.ok l) = Except.ok cfg) :
    ∃ tl kl el ed,
      get_lang_maps (get_lang_config_map g.languages) (get_lang_config_map l.languages)
          (merge_config_keys keymapDefault g.keys l.keys)
          (merge_editor_toml g.editor l.editor) = Except.ok (tl, kl, el) ∧
      map_editor_config (merge_editor_toml g.editor l.editor) = Except.ok ed ∧
      cfg = { theme := l.theme.or g.theme, theme_lang := tl,
              keys := merge_config_keys keymapDefault g.keys l.keys,
              keys_lang := kl, editor := ed, editor_lang := el } := by
  simp only [load] at h
  split at h
  · exact absurd h (by simp)
  · rename_i tl kl el heq1
    split at h
    · exact absurd h (by simp)
    · rename_i ed heq2
      refine ⟨tl, kl, el, ed, heq1, heq2, ?_⟩
      injection h with h
      exact h.symm

/-! ## Lemmas about the per-language resolution loop -/

theorem alLookup_consOpt {A : Type} (lang n : String) (o : Option A)
    (m : List (String × A)) :
    alLookup (consOpt n o m) lang =
      if n = lang then (o.or (alLookup m lang)) else alLookup m lang := by
  cases o <;> by_cases h : n = lang <;> simp [consOpt, alLookup, h, Option.or]

theorem mem_consOpt_fst {A : Type} (lang n : String) (o : Option A)
    (m : List (String × A)) (h : lang ∈ (consOpt n o m).map Prod.fst) :
    lang = n ∨ lang ∈ m.map Prod.fst := by
  cases o <;> simp_all [consOpt]

theorem langMapsGo_fst_subset (lang_global lang_local : List (String × LanguageConfigRaw))
    (mk : KeysMap) (ev : Option Value) (names : List String)
    (tl : List (String × String)) (kl : List (String × KeysMap))
    (el : List (String × EditorConfig))
    (h : langMapsGo lang_global lang_local mk ev names = Except.ok (tl, kl, el))
    (lang : String) :
    (lang ∈ tl.map Prod.fst → lang ∈ names) ∧
      (lang ∈ kl.map Prod.fst → lang ∈ names) ∧
      (lang ∈ el.map Prod.fst → lang ∈ names) := by
  induction names generalizing tl kl el with
  | nil =>
    simp only [langMapsGo, Except.ok.injEq, Prod.mk.injEq] at h
    obtain ⟨h1, h2, h3⟩ := h
    subst h1; subst h2; subst h3
    simp
  | cons n rest ih =>
    simp only [langMapsGo] at h
    split at h
    · exact absurd h (by simp)
    · rename_i th ks ed heq1
      split at h
      · exact absurd h (by simp)
      · rename_i tl' kl' el' heq2
        simp only [Except.ok.injEq, Prod.mk.injEq] at h
        obtain ⟨h1, h2, h3⟩ := h
        subst h1; subst h2; subst h3
        obtain ⟨ih1, ih2, ih3⟩ := ih tl' kl' el' heq2
        refine ⟨?_, ?_, ?_⟩ <;> intro hm
        · rcases mem_consOpt_fst lang n th tl' hm with hh | hh
          · exact hh ▸ List.mem_cons_self n rest
          · exact List.mem_cons_of_mem n (ih1 hh)
        · rcases mem_consOpt_fst lang n ks kl' hm with hh | hh
          · exact hh ▸ List.mem_cons_self n rest
          · exact List.mem_cons_of_mem n (ih2 hh)
        · rcases mem_consOpt_fst lang n ed el' hm with hh | hh
          · exact hh ▸ List.mem_cons_self n rest
          · exact List.mem_cons_of_mem n (ih3 hh)

theorem langMapsGo_lookup_not_mem
    (lang_global lang_local : List (String × LanguageConfigRaw))
    (mk : KeysMap) (ev : Option Value) (names : List String)
    (tl : List (String × String)) (kl : List (String × KeysMap))
    (el : List (String × EditorConfig))
    (h : langMapsGo lang_global lang_local mk ev names = Except.ok (tl, kl, el))
    (lang : String) (hlang : lang ∉ names) :
    alLookup tl lang = none ∧ alLookup kl lang = none ∧ alLookup el lang = none := by
  obtain ⟨h1, h2, h3⟩ := langMapsGo_fst_subset lang_global lang_local mk ev names tl kl el h lang
  refine ⟨?_, ?_, ?_⟩
  · cases hx : alLookup tl lang with
    | none => rfl
    | some v => exact absurd (h1 ((alLookup_isSome_iff tl lang).mp (by simp [hx]))) hlang
  · cases hx : alLookup kl lang with
    | none => rfl
    | some v => exact absurd (h2 ((alLookup_isSome_iff kl lang).mp (by simp [hx]))) hlang
  · cases hx : alLookup el lang with
    | none => rfl
    | some v => exact absurd (h3 ((alLookup_isSome_iff el lang).mp (by simp [hx]))) hlang

theorem langMapsGo_lookup_mem
    (lang_global lang_local : List (String × LanguageConfigRaw))
    (mk : KeysMap) (ev : Option Value) (names : List String)
    (tl : List (String × String)) (kl : List (String × KeysMap))
    (el : List (String × EditorConfig))
    (hnd : names.Nodup)
    (h : langMapsGo lang_global lang_local mk ev names = Except.ok (tl, kl, el))
    (lang : String) (hlang : lang ∈ names) :
    ∃ th ks ed,
      resolveLang mk ev (alLookup lang_global lang) (alLookup lang_local lang) =
        Except.ok (th, ks, ed) ∧
      alLookup tl lang = th ∧ alLookup kl lang = ks ∧ alLookup el lang = ed := by
  induction names generalizing tl kl el with
  | nil => cases hlang
  | cons n rest ih =>
    simp only [langMapsGo] at h
    split at h
    · exact absurd h (by simp)
    · rename_i th ks ed heq1
      split at h
      · exact absurd h (by simp)
      · rename_i tl' kl' el' heq2
        simp only [Except.ok.injEq, Prod.mk.injEq] at h
        obtain ⟨h1, h2, h3⟩ := h
        subst h1; subst h2; subst h3
        have hn_not : n ∉ rest := (List.nodup_cons.mp hnd).1
        rcases List.mem_cons.mp hlang with hh | hh
        · subst hh
          obtain ⟨z1, z2, z3⟩ :=
            langMapsGo_lookup_not_mem lang_global lang_local mk ev rest tl' kl' el'
              heq2 lang hn_not
          refine ⟨th, ks, ed, heq1, ?_, ?_, ?_⟩ <;>
            · rw [alLookup_consOpt]
              simp only [if_pos rfl, z1, z2, z3]
              cases th <;> cases ks <;> cases ed <;> simp [Option.or]
        · have hne : n ≠ lang := fun hc => hn_not (hc ▸ hh)
          obtain ⟨th', ks', ed', hr, e1, e2, e3⟩ :=
            ih tl' kl' el' (List.nodup_cons.mp hnd).2 heq2 hh
          refine ⟨th', ks', ed', hr, ?_, ?_, ?_⟩ <;>
            simp [alLookup_consOpt, hne, e1, e2, e3]

theorem langMapsGo_error (lang_global lang_local : List (String × LanguageConfigRaw))
    (mk : KeysMap) (ev : Option Value) (names : List String) (lang : String)
    (e : ConfigLoadError) (hlang : lang ∈ names)
    (hfail : resolveLang mk ev (alLookup lang_global lang) (alLookup lang_local lang) =
      Except.error e)
    (hothers : ∀ lang2, lang2 ∈ names → lang2 ≠ lang →
      exOk (resolveLang mk ev (alLookup lang_global lang2) (alLookup lang_local lang2)) =
        true) :
    langMapsGo lang_global lang_local mk ev names = Except.error e := by
  induction names with
  | nil => cases hlang
  | cons n rest ih =>
    by_cases hn : n = lang
    · subst hn
      simp [langMapsGo, hfail]
    · have hok := hothers n (List.mem_cons_self n rest) hn
      cases hr : resolveLang mk ev (alLookup lang_global n) (alLookup lang_local n) with
      | error e' => rw [hr] at hok; simp [exOk] at hok
      | ok trip =>
        obtain ⟨th, ks, ed⟩ := trip
        have hlang' : lang ∈ rest := by
          rcases List.mem_cons.mp hlang with hh | hh
          · exact absurd hh.symm hn
          · exact hh
        have hrest := ih hlang'
          (fun lang2 h2 hne => hothers lang2 (List.mem_cons_of_mem n h2) hne)
        simp [langMapsGo, hr, hrest]

/-! ## Lemmas about `resolveLang` -/

theorem map_editor_config_error_bad (v : Option Value) (e : ConfigLoadError)
    (h : map_editor_config v = Except.error e) :
    ∃ s, e = ConfigLoadError.BadConfig s := by
  cases v with
  | none => exact absurd h (by simp [map_editor_config])
  | some val =>
    simp only [map_editor_config] at h
    split at h
    · rename_i s heq
      exact ⟨s, by injection h with h; exact h.symm⟩
    · exact absurd h (by simp)

theorem resolveLang_error_of_fail (mk : KeysMap) (ev : Option Value)
    (lg ll : Option LanguageConfigRaw) (mv : Option Value) (e : ConfigLoadError)
    (hval : langEditorValue ev lg ll = some mv)
    (hfail : map_editor_config mv = Except.error e) :
    resolveLang mk ev lg ll = Except.error e := by
  cases lg with
  | none =>
    cases ll with
    | none => simp [langEditorValue] at hval
    | some c =>
      simp only [langEditorValue] at hval
      split at hval
      · injection hval with hval
        rename_i hce
        simp only [resolveLang]
        rw [if_pos hce, hval, hfail]
      · cases hval
  | some a =>
    cases ll with
    | none =>
      simp only [langEditorValue] at hval
      split at hval
      · injection hval with hval
        rename_i hce
        simp only [resolveLang]
        rw [if_pos hce, hval, hfail]
      · cases hval
    | some b =>
      simp only [langEditorValue] at hval
      split at hval
      · injection hval with hval
        rename_i hce
        simp only [resolveLang]
        rw [if_pos hce, hval, hfail]
      · cases hval

theorem resolveLang_error_bad (mk : KeysMap) (ev : Option Value)
    (lg ll : Option LanguageConfigRaw) (e : ConfigLoadError)
    (h : resolveLang mk ev lg ll = Except.error e) :
    ∃ s, e = ConfigLoadError.BadConfig s := by
  cases lg with
  | none =>
    cases ll with
    | none => exact absurd h (by simp [resolveLang])
    | some c =>
      simp only [resolveLang] at h
      split at h
      · split at h
        · rename_i heq
          injection h with h
          exact h ▸ map_editor_config_error_bad _ _ heq
        · exact absurd h (by simp)
      · exact absurd h (by simp)
  | some a =>
    cases ll with
    | none =>
      simp only [resolveLang] at h
      split at h
      · split at h
        · rename_i heq
          injection h with h
          exact h ▸ map_editor_config_error_bad _ _ heq
        · exact absurd h (by simp)
      · exact absurd h (by simp)
    | some b =>
      simp only [resolveLang] at h
      split at h
      · split at h
        · rename_i heq
          injection h with h
          exact h ▸ map_editor_config_error_bad _ _ heq
        · exact absurd h (by simp)
      · exact absurd h (by simp)

theorem resolveLang_ok_presence (mk : KeysMap) (ev : Option Value)
    (lg ll : Option LanguageConfigRaw)
    (r : Option String × Option KeysMap × Option EditorConfig)
    (h : resolveLang mk ev lg ll = Except.ok r) :
    r.1.isSome = ((ll.bind LanguageConfigRaw.theme).isSome
        || (lg.bind LanguageConfigRaw.theme).isSome) ∧
    r.2.1.isSome = ((lg.bind LanguageConfigRaw.keys).isSome
        || (ll.bind LanguageConfigRaw.keys).isSome) ∧
    r.2.2.isSome = ((lg.bind LanguageConfigRaw.editor).isSome
        || (ll.bind LanguageConfigRaw.editor).isSome) := by
  cases lg with
  | none =>
    cases ll with
    | none =>
      simp only [resolveLang] at h
      injection h with h
      subst h
      simp
    | some c =>
      simp only [resolveLang] at h
      split at h
      · rename_i hce
        split at h
        · exact absurd h (by simp)
        · rename_i ed heq
          injection h with h
          subst h
          refine ⟨by simp, ?_, by simp [hce]⟩
          cases hk : c.keys <;> simp [hk]
      · rename_i hce
        simp only [Bool.not_eq_true] at hce
        injection h with h
        subst h
        refine ⟨by simp, ?_, by simp [hce]⟩
        cases hk : c.keys <;> simp [hk]
  | some a =>
    cases ll with
    | none =>
      simp only [resolveLang] at h
      split at h
      · rename_i hce
        split at h
        · exact absurd h (by simp)
        · rename_i ed heq
          injection h with h
          subst h
          refine ⟨by simp, ?_, by simp [hce]⟩
          cases hk : a.keys <;> simp [hk]
      · rename_i hce
        simp only [Bool.not_eq_true] at hce
        injection h with h
        subst h
        refine ⟨by simp, ?_, by simp [hce]⟩
        cases hk : a.keys <;> simp [hk]
    | some b =>
      simp only [resolveLang] at h
      split at h
      · rename_i hce
        split at h
        · exact absurd h (by simp)
        · rename_i ed heq
          injection h with h
          subst h
          refine ⟨?_, ?_, by simp [hce]⟩
          · cases hb : b.theme <;> cases ha : a.theme <;> simp [hb, ha, Option.or]
          · cases hk : a.keys <;> cases hk2 : b.keys <;> simp [hk, hk2]
      · rename_i hce
        simp only [Bool.not_eq_true] at hce
        injection h with h
        subst h
        refine ⟨?_, ?_, by simp [hce]⟩
        · cases hb : b.theme <;> cases ha : a.theme <;> simp [hb, ha, Option.or]
        · cases hk : a.keys <;> cases hk2 : b.keys <;> simp [hk, hk2]

/-! ## Lemmas about `get_lang_config_map` -/

theorem glcm_lookup_aux (bs : List LanguageConfigRaw)
    (acc : List (String × LanguageConfigRaw)) (lang : String) :
    alLookup (bs.foldl (fun m b => alInsert m b.name b) acc) lang =
      bs.foldl (fun r b => if b.name = lang then some b else r) (alLookup acc lang) := by
  induction bs generalizing acc with
  | nil => rfl
  | cons b rest ih =>
    simp only [List.foldl_cons]
    rw [ih, alLookup_alInsert]

theorem glcm_lookup (o : Option (List LanguageConfigRaw)) (lang : String) :
    alLookup (get_lang_config_map o) lang = findBlock (o.getD []) lang := by
  exact glcm_lookup_aux (o.getD []) [] lang

theorem foldlFind_isSome_mono (bs : List LanguageConfigRaw) (lang : String)
    (r : Option LanguageConfigRaw) (h : r.isSome = true) :
    (bs.foldl (fun r b => if b.name = lang then some b else r) r).isSome = true := by
  induction bs generalizing r with
  | nil => exact h
  | cons b rest ih =>
    simp only [List.foldl_cons]
    apply ih
    by_cases hb : b.name = lang <;> simp [hb, h]

theorem foldlFind_isSome_of_mem (lang : String) (b : LanguageConfigRaw)
    (hname : b.name = lang) :
    ∀ (bs : List LanguageConfigRaw) (r : Option LanguageConfigRaw), b ∈ bs →
      (bs.foldl (fun r b2 => if b2.name = lang then some b2 else r) r).isSome = true := by
  intro bs
  induction bs with
  | nil => intro r hb; cases hb
  | cons b0 rest ih =>
    intro r hb
    simp only [List.foldl_cons]
    rcases List.mem_cons.mp hb with hh | hh
    · subst hh
      exact foldlFind_isSome_mono rest lang _ (by simp [hname])
    · exact ih _ hh

theorem foldlFind_eq_some (lang : String) :
    ∀ (bs : List LanguageConfigRaw) (r : Option LanguageConfigRaw)
      (b : LanguageConfigRaw),
      bs.foldl (fun r b2 => if b2.name = lang then some b2 else r) r = some b →
      (b ∈ bs ∧ b.name = lang) ∨ r = some b := by
  intro bs
  induction bs with
  | nil => intro r b h; exact Or.inr h
  | cons b0 rest ih =>
    intro r b h
    simp only [List.foldl_cons] at h
    rcases ih _ b h with hh | hh
    · exact Or.inl ⟨List.mem_cons_of_mem _ hh.1, hh.2⟩
    · by_cases hb0 : b0.name = lang
      · rw [if_pos hb0] at hh
        injection hh with hh
        exact Or.inl ⟨by rw [← hh]; exact List.mem_cons_self _ _, by rw [← hh]; exact hb0⟩
      · rw [if_neg hb0] at hh
        exact Or.inr hh

theorem findBlock_eq_some (bs : List LanguageConfigRaw) (lang : String)
    (b : LanguageConfigRaw) (h : findBlock bs lang = some b) :
    b ∈ bs ∧ b.name = lang := by
  rcases foldlFind_eq_some lang bs none b h with hh | hh
  · exact hh
  · cases hh

theorem findBlock_none (bs : List LanguageConfigRaw) (lang : String)
    (h : findBlock bs lang = none) : ∀ b ∈ bs, b.name ≠ lang := by
  intro b hb hname
  have hs := foldlFind_isSome_of_mem lang b hname bs none hb
  unfold findBlock at h
  rw [h] at hs
  cases hs

theorem foldlFind_no_match (lang : String) :
    ∀ (bs : List LanguageConfigRaw) (r : Option LanguageConfigRaw),
      (∀ b ∈ bs, b.name ≠ lang) →
      bs.foldl (fun r b2 => if b2.name = lang then some b2 else r) r = r := by
  intro bs
  induction bs with
  | nil => intro r _; rfl
  | cons b0 rest ih =>
    intro r hno
    simp only [List.foldl_cons]
    rw [if_neg (hno b0 (List.mem_cons_self _ _))]
    exact ih r fun b hb => hno b (List.mem_cons_of_mem _ hb)

theorem findBlock_nodup (bs : List LanguageConfigRaw) (lang : String)
    (b : LanguageConfigRaw)
    (hnd : (bs.map LanguageConfigRaw.name).Nodup)
    (hb : b ∈ bs) (hname : b.name = lang) :
    findBlock bs lang = some b := by
  induction bs with
  | nil => cases hb
  | cons b0 rest ih =>
    rw [List.map_cons, List.nodup_cons] at hnd
    rcases List.mem_cons.mp hb with hh | hh
    · subst hh
      simp only [findBlock, List.foldl_cons, if_pos hname]
      apply foldlFind_no_match
      intro b2 hb2 hb2name
      apply hnd.1
      rw [hname, ← hb2name]
      exact List.mem_map_of_mem _ hb2
    · have hb0 : ¬(b0.name = lang) := by
        intro hc
        apply hnd.1
        rw [hc, ← hname]
        exact List.mem_map_of_mem _ hh
      simp only [findBlock, List.foldl_cons, if_neg hb0]
      exact ih hnd.2 hh

/-! ## The per-document "has an override block that specifies a field" test -/

theorem docHasField_eq (d : ConfigRaw) (lang : String) (f : LanguageConfigRaw → Bool)
    (hnd : ((d.languages.getD []).map LanguageConfigRaw.name).Nodup) :
    docHasField d lang f =
      ((alLookup (get_lang_config_map d.languages) lang).map f).getD false := by
  rw [glcm_lookup]
  cases hfb : findBlock (d.languages.getD []) lang with
  | none =>
    have hno := findBlock_none _ _ hfb
    simp only [Option.map_none', Option.getD_none]
    cases hd : docHasField d lang f with
    | false => rfl
    | true =>
      exfalso
      unfold docHasField at hd
      rcases List.any_eq_true.mp hd with ⟨b, hb, hpb⟩
      rw [Bool.and_eq_true] at hpb
      exact hno b hb (by simpa using hpb.1)
  | some b =>
    obtain ⟨hmem, hname⟩ := findBlock_eq_some _ _ _ hfb
    simp only [Option.map_some', Option.getD_some]
    cases hf : f b with
    | true =>
      unfold docHasField
      exact List.any_eq_true.mpr ⟨b, hmem, by simp [hname, hf]⟩
    | false =>
      unfold docHasField
      apply Bool.eq_false_iff.mpr
      intro hany
      rcases List.any_eq_true.mp hany with ⟨b2, hb2, hpb2⟩
      rw [Bool.and_eq_true] at hpb2
      have hb2b : b2 = b :=
        List.inj_on_of_nodup_map hnd hb2 hmem (by rw [hname]; simpa using hpb2.1)
      have hfb2 := hpb2.2
      rw [hb2b, hf] at hfb2
      cases hfb2

/-! ## Language-name membership -/

theorem mem_langNames (lang_global lang_local : List (String × LanguageConfigRaw))
    (lang : String) :
    lang ∈ langNames lang_global lang_local ↔
      (alLookup lang_global lang).isSome = true ∨
        (alLookup lang_local lang).isSome = true := by
  simp [langNames, List.mem_dedup, List.mem_append, alLookup_isSome_iff]

theorem langNames_nodup (lang_global lang_local : List (String × LanguageConfigRaw)) :
    (langNames lang_global lang_local).Nodup :=
  List.nodup_dedup _

/-- The keys component of a successful per-language resolution is the
two-sided layering of the language's overrides onto the base table. -/
theorem resolveLang_ok_keys (mk : KeysMap) (ev : Option Value)
    (lg ll : Option LanguageConfigRaw)
    (r : Option String × Option KeysMap × Option EditorConfig)
    (h : resolveLang mk ev lg ll = Except.ok r)
    (kt : KeysMap) (hk : r.2.1 = some kt) :
    kt = merge_config_keys mk (lg.bind LanguageConfigRaw.keys)
      (ll.bind LanguageConfigRaw.keys) := by
  cases lg with
  | none =>
    cases ll with
    | none =>
      simp only [resolveLang] at h
      injection h with h
      subst h
      cases hk
    | some c =>
      simp only [resolveLang] at h
      have hmain : ∀ ed? : Option EditorConfig,
          r = (c.theme, c.keys.map fun k => merge_config_keys mk (some k) none, ed?) →
          kt = merge_config_keys mk ((none : Option LanguageConfigRaw).bind
              LanguageConfigRaw.keys) ((some c).bind LanguageConfigRaw.keys) := by
        intro ed? hr
        subst hr
        simp only at hk
        rcases Option.map_eq_some'.mp hk with ⟨k, hck, hkt2⟩
        simp only [Option.bind, hck]
        rw [← hkt2]
        rfl
      split at h
      · split at h
        · exact absurd h (by simp)
        · injection h with h
          exact hmain _ h.symm
      · injection h with h
        exact hmain _ h.symm
  | some a =>
    cases ll with
    | none =>
      simp only [resolveLang] at h
      have hmain : ∀ ed? : Option EditorConfig,
          r = (a.theme, a.keys.map fun k => merge_config_keys mk (some k) none, ed?) →
          kt = merge_config_keys mk ((some a).bind LanguageConfigRaw.keys)
            ((none : Option LanguageConfigRaw).bind LanguageConfigRaw.keys) := by
        intro ed? hr
        subst hr
        simp only at hk
        rcases Option.map_eq_some'.mp hk with ⟨k, hck, hkt2⟩
        simp only [Option.bind, hck]
        exact hkt2.symm
      split at h
      · split at h
        · exact absurd h (by simp)
        · injection h with h
          exact hmain _ h.symm
      · injection h with h
        exact hmain _ h.symm
    | some b =>
      simp only [resolveLang] at h
      have hmain : ∀ th : Option String, ∀ ed? : Option EditorConfig,
          r = (th,
            (if a.keys.isSome || b.keys.isSome then
              some (merge_config_keys mk a.keys b.keys) else none), ed?) →
          kt = merge_config_keys mk ((some a).bind LanguageConfigRaw.keys)
            ((some b).bind LanguageConfigRaw.keys) := by
        intro th ed? hr
        subst hr
        simp only at hk
        split at hk
        · injection hk with hk
          simp only [Option.bind]
          exact hk.symm
        · cases hk
      split at h
      · split at h
        · exact absurd h (by simp)
        · injection h with h
          exact hmain _ _ h.symm
      · injection h with h
        exact hmain _ _ h.symm

/-! ## Small computation rules used by the frame property -/

theorem stripLangs_theme (c : ConfigRaw) : (stripLangs c).theme = c.theme := rfl

theorem stripLangs_keys (c : ConfigRaw) : (stripLangs c).keys = c.keys := rfl

theorem stripLangs_editor (c : ConfigRaw) : (stripLangs c).editor = c.editor := rfl

theorem stripLangs_languages (c : ConfigRaw) : (stripLangs c).languages = none := rfl

theorem get_lang_config_map_none : get_lang_config_map none = [] := rfl

theorem get_lang_maps_nil (mk : KeysMap) (ev : Option Value) :
    get_lang_maps [] [] mk ev = Except.ok ([], [], []) := rfl

theorem option_bind_isSome_eq {A : Type} (o : Option LanguageConfigRaw)
    (fo : LanguageConfigRaw → Option A) :
    (o.bind fo).isSome = (o.map fun b => (fo b).isSome).getD false := by
  cases o <;> simp

/-- Computation rule: a two-document load in which neither document lists
languages resolves to the base fields with empty per-language maps. -/
theorem load_noLang (g l : ConfigRaw) (ed : EditorConfig)
    (hg : g.languages = none) (hl : l.languages = none)
    (hed : map_editor_config (merge_editor_toml g.editor l.editor) = Except.ok ed) :
    load (Except.ok g) (Except.ok l) =
      Except.ok
        { theme := l.theme.or g.theme, theme_lang := [],
          keys := merge_config_keys keymapDefault g.keys l.keys, keys_lang := [],
          editor := ed, editor_lang := [] } := by
  simp only [load, hg, hl, get_lang_config_map_none, get_lang_maps_nil, hed]

/-- Computation rule: a single-document load in which the document lists
no languages. -/
theorem loadSingle_noLang (c : ConfigRaw) (ed : EditorConfig)
    (hc : c.languages = none) (hed : map_editor_config c.editor = Except.ok ed) :
    loadSingle c =
      Except.ok
        { theme := c.theme, theme_lang := [],
          keys := merge_config_keys keymapDefault c.keys none, keys_lang := [],
          editor := ed, editor_lang := [] } := by
  simp only [loadSingle, hc, get_lang_config_map_none, get_lang_maps_nil, hed]

/-! ## Claim C1 — tie-break when both documents fail structurally -/

/-- C1 (counterexample): the claim says that when both documents have
structural parse failures, the failure of the *global* document is
returned. On the code it is the *local* document's failure: the
or-pattern at source lines 110–111 tests `(_, Err(BadConfig(err)))`
first, so the local error is bound. -/
theorem c1_counterexample :
    load (Except.error (ConfigLoadError.BadConfig "global bad"))
        (Except.error (ConfigLoadError.BadConfig "local bad")) =
      Except.error (ConfigLoadError.BadConfig "local bad") ∧
    ConfigLoadError.BadConfig "local bad" ≠ ConfigLoadError.BadConfig "global bad" :=
  ⟨rfl, by decide⟩

/-- C1 (amended): when both documents parse with a structural failure,
`load` returns a structural failure, namely the one produced by the
*local* document (the left alternative of the or-pattern matches first). -/
theorem c1_amended (eg el : String) :
    load (Except.error (ConfigLoadError.BadConfig eg))
        (Except.error (ConfigLoadError.BadConfig el)) =
      Except.error (ConfigLoadError.BadConfig el) := rfl

/-! ## Claim C2 — resolving two availability failures -/

/-- C2 (counterexample): the claim says two availability failures resolve
to a *successful* default `Config`; the code instead returns an error
(the global document's availability failure, source line 137). -/
theorem c2_counterexample :
    load (Except.error (ConfigLoadError.Error "global missing"))
        (Except.error (ConfigLoadError.Error "local missing")) =
      Except.error (ConfigLoadError.Error "global missing") := rfl

/-- C2 (amended): two availability failures do *not* resolve to a config —
`load` fails with the global document's availability failure; the claimed
default-complete configuration (default key table, typed default editor
settings, absent theme, all per-language maps empty) is instead what an
*empty well-formed document* paired with an availability failure resolves
to. -/
theorem c2_amended (eg el : String) :
    load (Except.error (ConfigLoadError.Error eg))
        (Except.error (ConfigLoadError.Error el)) =
      Except.error (ConfigLoadError.Error eg) ∧
    load (Except.ok {}) (Except.error (ConfigLoadError.Error el)) =
      Except.ok
        { theme := none, theme_lang := [], keys := keymapDefault, keys_lang := [],
          editor := {}, editor_lang := [] } :=
  ⟨rfl, rfl⟩

/-! ## Claim C3 — a lone structural failure always wins -/

/-- C3: if exactly one document has a structural parse failure (the other
parse outcome being well-formed or an availability failure), `load`
returns exactly that structural failure — regardless of which document it
belongs to — and never a config. -/
theorem c3_structural_wins (e : String) (other : Except ConfigLoadError ConfigRaw)
    (h : isStructuralFailure other = false) :
    load (Except.error (ConfigLoadError.BadConfig e)) other =
        Except.error (ConfigLoadError.BadConfig e) ∧
      load other (Except.error (ConfigLoadError.BadConfig e)) =
        Except.error (ConfigLoadError.BadConfig e) := by
  cases other with
  | ok c => exact ⟨rfl, rfl⟩
  | error err =>
    cases err with
    | BadConfig s => simp [isStructuralFailure] at h
    | Error s => exact ⟨rfl, rfl⟩

/-- C3 (witness): concrete instance — structurally invalid global paired
with a well-formed empty local document. -/
theorem c3_witness :
    load (Except.error (ConfigLoadError.BadConfig "bad")) (Except.ok {}) =
        Except.error (ConfigLoadError.BadConfig "bad") ∧
      load (Except.ok {}) (Except.error (ConfigLoadError.BadConfig "bad")) =
        Except.error (ConfigLoadError.BadConfig "bad") :=
  c3_structural_wins "bad" (Except.ok {}) rfl

/-! ## Claim C4 — two availability failures propagate the global one -/

/-- C4: when both parse outcomes are availability failures (neither
structural), `load` returns an error, namely the availability failure
belonging to the global document (source lines 136–137). -/
theorem c4_two_availability (eg el : String) :
    load (Except.error (ConfigLoadError.Error eg))
        (Except.error (ConfigLoadError.Error el)) =
      Except.error (ConfigLoadError.Error eg) := rfl

/-! ## Claim C9 — base theme precedence -/

/-- C9: for well-formed documents, the resolved base theme is the local
document's theme when present, otherwise the global document's theme,
otherwise absent (`local.theme.or(global.theme)`, source line 101). -/
theorem c9_theme (g l : ConfigRaw) (cfg : Config)
    (h : load (Except.ok g) (Except.ok l) = Except.ok cfg) :
    cfg.theme = l.theme.or g.theme := by
  obtain ⟨tl, kl, el, ed, h1, h2, h3⟩ := load_ok_elim g l cfg h
  subst h3
  rfl

/-- C9 (witness): global theme "dracula", local theme "nord" — the
resolved theme is "nord". -/
theorem c9_witness :
    ({ theme := some "nord", theme_lang := [], keys := keymapDefault, keys_lang := [],
        editor := {}, editor_lang := [] } : Config).theme =
      Option.or (some "nord") (some "dracula") :=
  c9_theme { theme := some "dracula" } { theme := some "nord" } _ (by decide)

/-! ## Claim C5 — base keymap layering -/

/-- C5: for well-formed documents, the resolved base keys equal the local
overrides layered onto (the global overrides layered onto the built-in
default table), a missing keys field contributing nothing; consequently
the resolved table keeps an entry for every mode of the default table. -/
theorem c5_base_keys (g l : ConfigRaw) (cfg : Config)
    (h : load (Except.ok g) (Except.ok l) = Except.ok cfg) :
    cfg.keys = specLayer (specLayer keymapDefault g.keys) l.keys ∧
      ∀ m : Mode, (alLookup keymapDefault m).isSome = true →
        (alLookup cfg.keys m).isSome = true := by
  obtain ⟨tl, kl, el, ed, h1, h2, h3⟩ := load_ok_elim g l cfg h
  subst h3
  exact ⟨merge_config_keys_eq_specLayer _ _ _,
    fun m hm => merge_config_keys_isSome _ _ _ m hm⟩

/-- C5 (witness): the §8 keymap layering example — global overrides
`insert.y`, local overrides `normal.A-F12`. -/
theorem c5_witness :
    ({ theme := none, theme_lang := [],
        keys := [(Mode.normal,
                   [("A-F12", "move_next_word_end"), ("h", "move_char_left"),
                    ("l", "move_char_right")]),
                 (Mode.insert, [("y", "move_line_down"), ("esc", "normal_mode")]),
                 (Mode.select, [("h", "extend_char_left")])],
        keys_lang := [], editor := {}, editor_lang := [] } : Config).keys =
      specLayer
        (specLayer keymapDefault (some [(Mode.insert, [("y", "move_line_down")])]))
        (some [(Mode.normal, [("A-F12", "move_next_word_end")])]) :=
  (c5_base_keys { keys := some [(Mode.insert, [("y", "move_line_down")])] }
    { keys := some [(Mode.normal, [("A-F12", "move_next_word_end")])] } _ (by decide)).1

/-! ## Claim C6 — per-language keymaps layer onto the resolved base -/

/-- C6: whenever `load` succeeds on two well-formed documents, every entry
`keys_lang[L]` is the two documents' per-language key overrides for `L`
layered (global side first, then local side) onto the *already-resolved
base keys*, not onto the raw default table; hence it is a complete mode
table wherever the base is. -/
theorem c6_lang_keys (g l : ConfigRaw) (cfg : Config)
    (h : load (Except.ok g) (Except.ok l) = Except.ok cfg)
    (lang : String) (kt : KeysMap)
    (hkt : alLookup cfg.keys_lang lang = some kt) :
    kt = specLayer
        (specLayer cfg.keys
          ((alLookup (get_lang_config_map g.languages) lang).bind LanguageConfigRaw.keys))
        ((alLookup (get_lang_config_map l.languages) lang).bind LanguageConfigRaw.keys) ∧
      ∀ m : Mode, (alLookup cfg.keys m).isSome = true →
        (alLookup kt m).isSome = true := by
  obtain ⟨tl, kl, el, ed, h1, h2, h3⟩ := load_ok_elim g l cfg h
  subst h3
  dsimp only at hkt ⊢
  unfold get_lang_maps at h1
  by_cases hmem : lang ∈ langNames (get_lang_config_map g.languages)
      (get_lang_config_map l.languages)
  · obtain ⟨th, ks, ed', hres, e1, e2, e3⟩ :=
      langMapsGo_lookup_mem _ _ _ _ _ tl kl el (langNames_nodup _ _) h1 lang hmem
    rw [hkt] at e2
    have hkeq := resolveLang_ok_keys _ _ _ _ _ hres kt e2.symm
    constructor
    · rw [hkeq, merge_config_keys_eq_specLayer]
    · intro m hm
      rw [hkeq]
      exact merge_config_keys_isSome _ _ _ m hm
  · obtain ⟨z1, z2, z3⟩ :=
      langMapsGo_lookup_not_mem _ _ _ _ _ tl kl el h1 lang hmem
    rw [hkt] at z2
    cases z2

/-- C6 (witness): a single language override for "rust" supplying keys;
`keys_lang["rust"]` is that override layered onto the resolved base. -/
theorem c6_witness :
    rustMergedKeys =
      specLayer
        (specLayer rustKeysCfg.keys
          ((alLookup (get_lang_config_map rustKeysDoc.languages) "rust").bind
            LanguageConfigRaw.keys))
        ((alLookup (get_lang_config_map (ConfigRaw.languages {})) "rust").bind
          LanguageConfigRaw.keys) :=
  (c6_lang_keys rustKeysDoc {} rustKeysCfg (by decide) "rust" rustMergedKeys
    (by decide)).1

/-! ## Claim C8 — a per-language materialization failure aborts the load -/

/-- C8: if the merged editor-settings value of some language fails to
materialize into the typed settings record, `load` on the two well-formed
documents returns exactly that structural failure — no config is produced
(per-language resolution is not isolated from the rest of the load). The
hypotheses name the failing language `lang` and require the remaining
languages to resolve, pinning down which failure is propagated. -/
theorem c8_lang_editor_fail (g l : ConfigRaw) (lang : String) (mv : Option Value)
    (e : ConfigLoadError)
    (hmem : lang ∈ langNames (get_lang_config_map g.languages)
      (get_lang_config_map l.languages))
    (hval : langEditorValue (merge_editor_toml g.editor l.editor)
        (alLookup (get_lang_config_map g.languages) lang)
        (alLookup (get_lang_config_map l.languages) lang) = some mv)
    (hfail : map_editor_config mv = Except.error e)
    (hothers : ∀ lang2,
      lang2 ∈ langNames (get_lang_config_map g.languages)
        (get_lang_config_map l.languages) →
      lang2 ≠ lang →
      exOk (resolveLang (merge_config_keys keymapDefault g.keys l.keys)
        (merge_editor_toml g.editor l.editor)
        (alLookup (get_lang_config_map g.languages) lang2)
        (alLookup (get_lang_config_map l.languages) lang2)) = true) :
    load (Except.ok g) (Except.ok l) = Except.error e ∧
      ∃ s, e = ConfigLoadError.BadConfig s := by
  have hres := resolveLang_error_of_fail (merge_config_keys keymapDefault g.keys l.keys)
    _ _ _ mv e hval hfail
  have hgo := langMapsGo_error _ _ _ _ _ lang e hmem hres hothers
  refine ⟨?_, map_editor_config_error_bad mv e hfail⟩
  simp only [load, get_lang_maps, hgo]

/-- C8 (witness): the global document gives language "rust" the editor
value `"x"` (not a table); materialization fails and the whole load
returns that structural failure. -/
theorem c8_witness :
    load (Except.ok rustBadEditorDoc) (Except.ok {}) =
      Except.error (ConfigLoadError.BadConfig "editor settings must be a table") :=
  (c8_lang_editor_fail rustBadEditorDoc {} "rust" (some (Value.str "x"))
    (ConfigLoadError.BadConfig "editor settings must be a table")
    (by decide) rfl rfl (by decide)).1

/-! ## Claim C10 — base fields are independent of the language lists -/

/-- C10: whenever `load` succeeds, the base `theme`, `keys` and `editor`
of the result do not depend on the two documents' per-language override
lists: loading the same parse outcomes with the language lists removed
succeeds and returns the same base fields (with, of course, empty
per-language maps). -/
theorem c10_frame (a b : Except ConfigLoadError ConfigRaw) (cfg : Config)
    (h : load a b = Except.ok cfg) :
    load (a.map stripLangs) (b.map stripLangs) =
      Except.ok
        { theme := cfg.theme, theme_lang := [], keys := cfg.keys, keys_lang := [],
          editor := cfg.editor, editor_lang := [] } := by
  cases a with
  | ok g =>
    cases b with
    | ok l =>
      obtain ⟨tl, kl, el, ed, h1, h2, h3⟩ := load_ok_elim g l cfg h
      subst h3
      exact load_noLang (stripLangs g) (stripLangs l) ed rfl rfl h2
    | error e =>
      cases e with
      | BadConfig s => exact absurd h (by simp [load])
      | Error s =>
        obtain ⟨tl, kl, el, ed, h1, h2, h3⟩ := loadSingle_ok_elim g cfg h
        subst h3
        exact loadSingle_noLang (stripLangs g) ed rfl h2
  | error e =>
    cases b with
    | ok l =>
      cases e with
      | BadConfig s => exact absurd h (by simp [load])
      | Error s =>
        obtain ⟨tl, kl, el, ed, h1, h2, h3⟩ := loadSingle_ok_elim l cfg h
        subst h3
        exact loadSingle_noLang (stripLangs l) ed rfl h2
    | error e2 => cases e <;> cases e2 <;> simp [load] at h

/-! ## Claim C7 — exactly the touched fields get per-language entries -/

/-- C7: for well-formed documents whose language lists do not repeat a
name (the spec's §3 data-integrity expectation), each of `theme_lang`,
`keys_lang`, `editor_lang` has an entry for a language iff at least one of
the two documents has an override block for that language specifying the
corresponding field; in particular a language mentioned without a field
adds no entry for it, and only languages mentioned by some document
(their union) get entries at all. -/
theorem c7_lang_entries (g l : ConfigRaw) (cfg : Config)
    (h : load (Except.ok g) (Except.ok l) = Except.ok cfg)
    (hgnd : ((g.languages.getD []).map LanguageConfigRaw.name).Nodup)
    (hlnd : ((l.languages.getD []).map LanguageConfigRaw.name).Nodup)
    (lang : String) :
    (alLookup cfg.theme_lang lang).isSome
        = (docHasField g lang (fun b => b.theme.isSome)
            || docHasField l lang (fun b => b.theme.isSome)) ∧
      (alLookup cfg.keys_lang lang).isSome
        = (docHasField g lang (fun b => b.keys.isSome)
            || docHasField l lang (fun b => b.keys.isSome)) ∧
      (alLookup cfg.editor_lang lang).isSome
        = (docHasField g lang (fun b => b.editor.isSome)
            || docHasField l lang (fun b => b.editor.isSome)) := by
  obtain ⟨tl, kl, el, ed, h1, h2, h3⟩ := load_ok_elim g l cfg h
  subst h3
  dsimp only
  unfold get_lang_maps at h1
  rw [docHasField_eq g lang (fun b => b.theme.isSome) hgnd,
    docHasField_eq l lang (fun b => b.theme.isSome) hlnd,
    docHasField_eq g lang (fun b => b.keys.isSome) hgnd,
    docHasField_eq l lang (fun b => b.keys.isSome) hlnd,
    docHasField_eq g lang (fun b => b.editor.isSome) hgnd,
    docHasField_eq l lang (fun b => b.editor.isSome) hlnd]
  by_cases hmem : lang ∈ langNames (get_lang_config_map g.languages)
      (get_lang_config_map l.languages)
  · obtain ⟨th, ks, ed', hres, e1, e2, e3⟩ :=
      langMapsGo_lookup_mem _ _ _ _ _ tl kl el (langNames_nodup _ _) h1 lang hmem
    obtain ⟨p1, p2, p3⟩ := resolveLang_ok_presence _ _ _ _ _ hres
    dsimp only at p1 p2 p3
    rw [e1, e2, e3]
    refine ⟨?_, ?_, ?_⟩
    · rw [p1, option_bind_isSome_eq, option_bind_isSome_eq]
      exact Bool.or_comm _ _
    · rw [p2, option_bind_isSome_eq, option_bind_isSome_eq]
    · rw [p3, option_bind_isSome_eq, option_bind_isSome_eq]
  · obtain ⟨z1, z2, z3⟩ :=
      langMapsGo_lookup_not_mem _ _ _ _ _ tl kl el h1 lang hmem
    rw [mem_langNames] at hmem
    push_neg at hmem
    have hgn : alLookup (get_lang_config_map g.languages) lang = none := by
      cases hx : alLookup (get_lang_config_map g.languages) lang with
      | none => rfl
      | some b => exact absurd (by simp [hx]) hmem.1
    have hln : alLookup (get_lang_config_map l.languages) lang = none := by
      cases hx : alLookup (get_lang_config_map l.languages) lang with
      | none => rfl
      | some b => exact absurd (by simp [hx]) hmem.2
    rw [z1, z2, z3, hgn, hln]
    simp

/-- C7 (witness): global mentions "rust" with a theme only, local mentions
"py" with editor settings only; `theme_lang` has an entry for "rust" and
the test agrees with the per-document block predicate. -/
theorem c7_witness :
    (alLookup c7cfg.theme_lang "rust").isSome
        = (docHasField rustThemeDoc "rust" (fun b => b.theme.isSome)
            || docHasField pyEditorDoc "rust" (fun b => b.theme.isSome)) :=
  (c7_lang_entries rustThemeDoc pyEditorDoc c7cfg (by decide) (by decide) (by decide)
    "rust").1

/-- C10 (witness): a document with a language override block; stripping
the language lists preserves the base theme, keys and editor. -/
theorem c10_witness :
    load ((Except.ok themeLangDoc).map stripLangs)
        ((Except.ok ({} : ConfigRaw)).map stripLangs) =
      Except.ok
        { theme := some "t", theme_lang := [], keys := keymapDefault, keys_lang := [],
          editor := {}, editor_lang := [] } :=
  c10_frame (Except.ok themeLangDoc) (Except.ok {}) themeLangCfg (by decide)

end Helix
